import Mathlib

/-!
TWI (I2C) host bring-up for the ATmega4809: `src/twi/twi.c`

A shallow embedding of the driver functions `TWI_Init`, `TWI_interrupt_init`,
`TWI_Set_Address`, `TWI_Start`, `TWI_Stop`, `TWI_Write` and of `main`.

* The peripheral registers are 8 bits wide.  They are natural numbers here and
  every store reduces the stored value modulo `2 ^ 8`.
* `int` is 16 bits wide on the AVR, so the C expression `~k` is the 16-bit
  complement of `k`; the result of `reg & ~k` is truncated again by the store.
* Every store to a register is appended to a log, so that the order of the
  register writes can be stated.
* `TWI0.MSTATUS` is driven by the hardware.  A read of it by the program takes
  the next value of a read sequence `status : Nat → Nat`; the machine counts the
  reads made so far.  The `MSTATUS` field of the register file holds the value
  the register had initially or the value software stored last.
* The busy-wait of `TWI_Write` is bounded by a poll budget; a run that used up
  the budget is reported as still `waiting`.
* `_delay_ms` only lets time pass, which is not modelled.
-/

namespace Twi

/-! ## Constants of the source -/

-- BUS STATES
def UNKNOWN : Nat := 0x00
def IDLE : Nat := 0x01
def OWNER : Nat := 0x02
def BUSY : Nat := 0x03

-- MSTATUS
def RIF : Nat := 0x80
def WIF : Nat := 0x40
def CLK : Nat := 0x20
def RXACK : Nat := 0x10
def ARBLOST : Nat := 0x08
def BUSERR : Nat := 0x04

-- MCTRLB
def FLUSH : Nat := 0x08
def NACK : Nat := 0x04
def STOP : Nat := 0x03
def READ : Nat := 0x02
def ACK : Nat := 0x0

/-- Pin bit masks `PIN1_bm`, `PIN2_bm`, `PIN3_bm`.  They are declared in
`<avr/io.h>`, which is not part of the repository, so `main` takes them as a
parameter. -/
structure PinMasks where
  PIN1_bm : Nat
  PIN2_bm : Nat
  PIN3_bm : Nat
  deriving DecidableEq, Repr

/-- The values the AVR headers give to the pin masks. -/
def avrPins : PinMasks := { PIN1_bm := 0x02, PIN2_bm := 0x04, PIN3_bm := 0x08 }

/-! ## Machine state -/

/-- The registers of the `TWI0` instance that the program touches. -/
structure TWI_t where
  MCTRLA : Nat
  MCTRLB : Nat
  MSTATUS : Nat
  MBAUD : Nat
  MADDR : Nat
  MDATA : Nat
  deriving DecidableEq, Repr

/-- The registers of a port that the program touches. -/
structure PORT_t where
  DIR : Nat
  OUT : Nat
  deriving DecidableEq, Repr

/-- Names of the registers, used in the write log. -/
inductive Reg where
  | MCTRLA | MCTRLB | MSTATUS | MBAUD | MADDR | MDATA
  | PORTA_DIR | PORTA_OUT | PORTE_DIR | PORTE_OUT
  deriving DecidableEq, Repr

/-- Register file, number of `MSTATUS` reads made so far, and the log of all
register writes in program order. -/
structure Machine where
  TWI0 : TWI_t
  PORTA : PORT_t
  PORTE : PORT_t
  reads : Nat
  log : List (Reg × Nat)
  deriving DecidableEq, Repr

/-- Store to an 8-bit register: the value is truncated to 8 bits, written to the
register file and recorded in the log. -/
def Machine.store (m : Machine) (r : Reg) (v : Nat) : Machine :=
  let b := v % 256
  let l := m.log ++ [(r, b)]
  match r with
  | .MCTRLA => { m with TWI0 := { m.TWI0 with MCTRLA := b }, log := l }
  | .MCTRLB => { m with TWI0 := { m.TWI0 with MCTRLB := b }, log := l }
  | .MSTATUS => { m with TWI0 := { m.TWI0 with MSTATUS := b }, log := l }
  | .MBAUD => { m with TWI0 := { m.TWI0 with MBAUD := b }, log := l }
  | .MADDR => { m with TWI0 := { m.TWI0 with MADDR := b }, log := l }
  | .MDATA => { m with TWI0 := { m.TWI0 with MDATA := b }, log := l }
  | .PORTA_DIR => { m with PORTA := { m.PORTA with DIR := b }, log := l }
  | .PORTA_OUT => { m with PORTA := { m.PORTA with OUT := b }, log := l }
  | .PORTE_DIR => { m with PORTE := { m.PORTE with DIR := b }, log := l }
  | .PORTE_OUT => { m with PORTE := { m.PORTE with OUT := b }, log := l }

/-- One read of the hardware-driven `TWI0.MSTATUS`: the machine after the read. -/
def Machine.tick (m : Machine) : Machine := { m with reads := m.reads + 1 }

/-- The C expression `~k` on the 16-bit `int` of the AVR, as a bit pattern. -/
def bitNot (k : Nat) : Nat := 0xFFFF - k % 0x10000

/-- `_delay_ms(ms)`: only time passes. -/
def _delay_ms (_ms : Nat) (m : Machine) : Machine := m

/-- Outcome of a call that contains a busy-wait. -/
inductive Run where
  /-- the call returned in this state -/
  | returned (m : Machine)
  /-- the poll budget ran out while the call was still busy-waiting -/
  | waiting (m : Machine)
  deriving DecidableEq, Repr

/-- Sequencing: the rest of the program runs only after the call has returned. -/
def Run.andThen (r : Run) (k : Machine → Run) : Run :=
  match r with
  | .returned m => k m
  | .waiting m => .waiting m

/-- The machine state an outcome carries. -/
def Run.machine : Run → Machine
  | .returned m => m
  | .waiting m => m

/-- Outcome of `main`. -/
inductive Outcome where
  /-- `return 0` of the `else` branch of the ownership check (line 121) -/
  | exitNotOwner (m : Machine)
  /-- `return 0` at the end of `main` (line 166) -/
  | exitDone (m : Machine)
  /-- still busy-waiting inside a `TWI_Write` when the poll budget ran out -/
  | waiting (m : Machine)
  deriving DecidableEq, Repr

/-- The machine state an outcome of `main` carries. -/
def Outcome.machine : Outcome → Machine
  | .exitNotOwner m => m
  | .exitDone m => m
  | .waiting m => m

/-- Outcome of `main` once the ownership check has passed. -/
def Run.toOutcome : Run → Outcome
  | .returned m => .exitDone m
  | .waiting m => .waiting m

/-! ## The driver functions -/

/-- `void TWI_Init(void)` -/
def TWI_Init (m : Machine) : Machine :=
  let m := m.store .MBAUD 76
  let m := m.store .MSTATUS 0xED
  let m := m.store .MCTRLA (m.TWI0.MCTRLA ||| 0x01)
  m

/-- `void TWI_interrupt_init(void)` -/
def TWI_interrupt_init (m : Machine) : Machine :=
  m.store .MCTRLA (m.TWI0.MCTRLA ||| 0xC0)

/-- `void TWI_Set_Address(uint8_t addr)` -/
def TWI_Set_Address (addr : Nat) (m : Machine) : Machine :=
  let addr := addr % 256
  let m := m.store .MCTRLA (m.TWI0.MCTRLA &&& bitNot 1)
  let m := m.store .MADDR addr
  m

/-- `void TWI_Start(void)` -/
def TWI_Start (m : Machine) : Machine :=
  m.store .MADDR (m.TWI0.MADDR &&& bitNot 0x1)

/-- `void TWI_Stop(void)` -/
def TWI_Stop (m : Machine) : Machine :=
  m.store .MCTRLB (m.TWI0.MCTRLB ||| (NACK ||| STOP))

/-- `void TWI_Write(uint8_t data)`: `while (!(TWI0.MSTATUS & WIF)) { }` followed
by `TWI0.MDATA = data`.  The third argument is the number of polls allowed. -/
def TWI_Write (status : Nat → Nat) (data : Nat) : Nat → Machine → Run
  | 0, m => .waiting m
  | fuel + 1, m =>
    let v := status m.reads
    let m := m.tick
    if v &&& WIF = 0 then TWI_Write status data fuel m
    else .returned (m.store .MDATA (data % 256))

/-- The loop `for (int x = 0; x < 5; x++) { ... }` of `main`, with `n` iterations
still to run. -/
def blinkLoop (pins : PinMasks) : Nat → Machine → Machine
  | 0, m => m
  | n + 1, m =>
    let m := _delay_ms 10 m
    let m := m.store .PORTE_OUT (m.PORTE.OUT ||| pins.PIN2_bm)
    let m := _delay_ms 10 m
    let m := m.store .PORTE_OUT (m.PORTE.OUT &&& bitNot pins.PIN2_bm)
    blinkLoop pins n m

/-- `int main(void)`; `fuel` is the number of polls allowed to each `TWI_Write`. -/
def main (pins : PinMasks) (status : Nat → Nat) (fuel : Nat) (m : Machine) : Outcome :=
  let m := m.store .PORTA_DIR (m.PORTA.DIR ||| pins.PIN2_bm)
  let m := m.store .PORTA_DIR (m.PORTA.DIR ||| pins.PIN3_bm)
  let m := m.store .PORTE_DIR (m.PORTE.DIR ||| pins.PIN2_bm)
  let m := m.store .PORTE_DIR (m.PORTE.DIR ||| pins.PIN3_bm)
  let m := m.store .PORTA_DIR (m.PORTA.DIR ||| pins.PIN1_bm)
  let m := _delay_ms 20 m
  let m := TWI_Set_Address 0x78 m
  let m := TWI_Init m
  let m := TWI_Start m
  let m := TWI_interrupt_init m
  let v := status m.reads
  let m := m.tick
  if v &&& OWNER = 0x02 then
    let m := blinkLoop pins 5 m
    Run.toOutcome <|
    (TWI_Write status 0x00 fuel m).andThen fun m =>
    let v := status m.reads
    let m := m.tick
    let m := if v &&& 0x1C = 0x00 then m.store .PORTE_OUT (m.PORTE.OUT ||| pins.PIN3_bm) else m
    (TWI_Write status 0xA8 fuel m).andThen fun m =>
    let m := m.store .PORTE_OUT (m.PORTE.OUT &&& bitNot pins.PIN2_bm)
    let v := status m.reads
    let m := m.tick
    let m := if v &&& 0x1C = 0x00 then m.store .PORTA_OUT (m.PORTA.OUT ||| pins.PIN1_bm) else m
    (TWI_Write status 0x3F fuel m).andThen fun m =>
    (TWI_Write status 0xD3 fuel m).andThen fun m =>
    (TWI_Write status 0x00 fuel m).andThen fun m =>
    (TWI_Write status 0x40 fuel m).andThen fun m =>
    (TWI_Write status 0xA1 fuel m).andThen fun m =>
    (TWI_Write status 0xC0 fuel m).andThen fun m =>
    (TWI_Write status 0xDA fuel m).andThen fun m =>
    (TWI_Write status 0x02 fuel m).andThen fun m =>
    (TWI_Write status 0x81 fuel m).andThen fun m =>
    (TWI_Write status 0x7F fuel m).andThen fun m =>
    (TWI_Write status 0xA4 fuel m).andThen fun m =>
    (TWI_Write status 0xA6 fuel m).andThen fun m =>
    (TWI_Write status 0xD5 fuel m).andThen fun m =>
    (TWI_Write status 0x80 fuel m).andThen fun m =>
    (TWI_Write status 0x8D fuel m).andThen fun m =>
    (TWI_Write status 0x14 fuel m).andThen fun m =>
    (TWI_Write status 0xAF fuel m).andThen fun m =>
    let m := _delay_ms 25 m
    let m := TWI_Stop m
    let m := _delay_ms 25 m
    let v := status m.reads
    let m := m.tick
    let m :=
      if v = 0x1 then
        let m := m.store .PORTE_OUT (m.PORTE.OUT &&& bitNot pins.PIN3_bm)
        m.store .PORTA_OUT (m.PORTA.OUT &&& bitNot pins.PIN1_bm)
      else m
    .returned m
  else
    .exitNotOwner m

/-! ## Observations on a run -/

/-- State of the machine at reset: all registers zero, nothing read or written. -/
def resetMachine : Machine :=
  { TWI0 := { MCTRLA := 0, MCTRLB := 0, MSTATUS := 0, MBAUD := 0, MADDR := 0, MDATA := 0 }
    PORTA := { DIR := 0, OUT := 0 }
    PORTE := { DIR := 0, OUT := 0 }
    reads := 0
    log := [] }

/-- The bytes written to `TWI0.MDATA`, in order. -/
def dataWrites (l : List (Reg × Nat)) : List Nat :=
  l.filterMap fun w => if w.1 = Reg.MDATA then some w.2 else none

/-- Whether a register is one of the debug LED output registers. -/
def Reg.isLedOut : Reg → Bool
  | .PORTA_OUT => true
  | .PORTE_OUT => true
  | _ => false

/-- Whether a register belongs to the TWI module. -/
def Reg.isTwi : Reg → Bool
  | .MCTRLA | .MCTRLB | .MSTATUS | .MBAUD | .MADDR | .MDATA => true
  | _ => false

/-- The writes to the TWI registers, in order. -/
def twiWrites (l : List (Reg × Nat)) : List (Reg × Nat) :=
  l.filter fun w => w.1.isTwi

/-- The bus-state field of a status value: its low two bits. -/
def busState (v : Nat) : Nat := v &&& 0x03

/-- The command stream of `main`. -/
def cmdBytes : List Nat :=
  [0x00, 0xA8, 0x3F, 0xD3, 0x00, 0x40, 0xA1, 0xC0, 0xDA, 0x02, 0x81, 0x7F, 0xA4, 0xA6,
   0xD5, 0x80, 0x8D, 0x14, 0xAF]

/-- Every register of the machine holds an 8-bit value. -/
def Machine.Valid (m : Machine) : Prop :=
  (m.TWI0.MCTRLA < 256 ∧ m.TWI0.MCTRLB < 256 ∧ m.TWI0.MSTATUS < 256) ∧
  (m.TWI0.MBAUD < 256 ∧ m.TWI0.MADDR < 256 ∧ m.TWI0.MDATA < 256) ∧
  (m.PORTA.DIR < 256 ∧ m.PORTA.OUT < 256) ∧ (m.PORTE.DIR < 256 ∧ m.PORTE.OUT < 256)

instance (m : Machine) : Decidable m.Valid := by
  unfold Machine.Valid
  infer_instance

/-- The divisor formula in the words of section 4.1 of the specification,
`(hostClock / (2 × busRate)) − 5`, in exact (rational) arithmetic.  It is not
taken from the source, which holds only the constant it programs; the two are
compared below. -/
def specDivisor (hostClock busRate : ℚ) : ℚ := hostClock / (2 * busRate) - 5

/-- A register state in which every register holds a bit pattern that the
operations below must keep apart. -/
def sampleMachine : Machine :=
  { TWI0 := { MCTRLA := 0xC3, MCTRLB := 0x08, MSTATUS := 0x21, MBAUD := 0x11, MADDR := 0x55,
              MDATA := 0x99 }
    PORTA := { DIR := 0x0E, OUT := 0x02 }
    PORTE := { DIR := 0x0C, OUT := 0x08 }
    reads := 3
    log := [(Reg.MDATA, 0x99)] }

/-- Status reads of an undisturbed transfer: every read shows bus state `OWNER`
with `WIF` set and no error flag. -/
def ownerReady : Nat → Nat := fun _ => 0x42

/-- Status reads that show bus state `OWNER` with `WIF` set and all three error
flags (`RXACK`, `ARBLOST`, `BUSERR`) raised. -/
def ownerReadyErrors : Nat → Nat := fun _ => 0x5E

/-- Status reads that show bus state `BUSY` with `WIF` set. -/
def busyReady : Nat → Nat := fun _ => 0x43

/-- How a run of `main` ended. -/
inductive Exit where
  | notOwner | done | waiting
  deriving DecidableEq, Repr

/-- The abort/continue decision and progress of a run of `main`. -/
def Outcome.exit : Outcome → Exit
  | .exitNotOwner _ => .notOwner
  | .exitDone _ => .done
  | .waiting _ => .waiting

/-- Everything in the machine except the debug LED outputs `PORTA.OUT` and
`PORTE.OUT`: the TWI registers, the port directions, the number of status reads
and the log of the writes to all registers other than the two LED outputs. -/
def Machine.low (m : Machine) : TWI_t × Nat × Nat × Nat × List (Reg × Nat) :=
  (m.TWI0, m.PORTA.DIR, m.PORTE.DIR, m.reads, m.log.filter fun w => !w.1.isLedOut)

/-- Two outcomes of a call agree on whether it returned and on everything except
the debug LED outputs. -/
def Run.LowEq : Run → Run → Prop
  | .returned a, .returned b => a.low = b.low
  | .waiting a, .waiting b => a.low = b.low
  | _, _ => False

/-- A call with a busy-wait settles when, from some poll budget on, it returns,
always in the same state. -/
def Settles (f : Nat → Run) : Prop := ∃ N m, ∀ fuel, N ≤ fuel → f fuel = Run.returned m

/-! ## Bit-level facts -/

theorem bitNot_one : bitNot 1 = 0xFFFE := by decide

theorem testBit_and_bitNot_one (x i : Nat) (hx : x < 256) :
    ((x &&& bitNot 1) % 256).testBit i = (decide (i ≠ 0) && x.testBit i) := by
  have h1 : x &&& bitNot 1 < 256 := lt_of_le_of_lt Nat.and_le_left hx
  rw [Nat.mod_eq_of_lt h1, Nat.testBit_and, bitNot_one]
  by_cases hi : i < 8
  · have h3 : ∀ j < 8, Nat.testBit 0xFFFE j = decide (j ≠ 0) := by decide
    rw [h3 i hi, Bool.and_comm]
  · have h2 : x < 2 ^ i :=
      lt_of_lt_of_le hx (by simpa using Nat.pow_le_pow_right (by decide : 0 < 2) (not_lt.mp hi))
    simp [Nat.testBit_lt_two_pow h2]

theorem or_mod_256 (x c : Nat) (hx : x < 256) (hc : c < 256) : (x ||| c) % 256 = x ||| c :=
  Nat.mod_eq_of_lt (Nat.or_lt_two_pow (n := 8) hx hc)

theorem testBit_const_lt (c k i : Nat) (hc : c = 2 ^ k - 1) :
    c.testBit i = decide (i < k) := by
  subst hc
  exact Nat.testBit_two_pow_sub_one k i

theorem testBit_or_one (x i : Nat) : (x ||| 1).testBit i = (decide (i = 0) || x.testBit i) := by
  rw [Nat.testBit_or, Bool.or_comm]
  congr 1
  have h := testBit_const_lt 1 1 i rfl
  rw [h]
  by_cases hi : i = 0 <;> simp [hi]

theorem testBit_or_seven (x i : Nat) : (x ||| 7).testBit i = (decide (i < 3) || x.testBit i) := by
  rw [Nat.testBit_or, Bool.or_comm, testBit_const_lt 7 3 i rfl]

theorem shl_and_bitNot_one (a : Nat) (ha : a < 128) :
    ((a <<< 1 % 256) &&& bitNot 1) % 256 = a <<< 1 := by
  interval_cases a <;> rfl

/-! ## The busy-wait of `TWI_Write` -/

theorem TWI_Write_waiting (status : Nat → Nat) (data : Nat) :
    ∀ (n : Nat) (m : Machine), (∀ j, j < n → status (m.reads + j) &&& WIF = 0) →
      TWI_Write status data n m = Run.waiting { m with reads := m.reads + n } := by
  intro n
  induction n with
  | zero => intro m _; rfl
  | succ n ih =>
    intro m h
    have h0 : status m.reads &&& WIF = 0 := by simpa using h 0 (Nat.succ_pos n)
    have h1 : ∀ j, j < n → status (m.tick.reads + j) &&& WIF = 0 := by
      intro j hj
      have := h (j + 1) (Nat.succ_lt_succ hj)
      simpa [Machine.tick, Nat.add_assoc, Nat.add_comm 1 j] using this
    rw [TWI_Write]
    simp only [h0, if_true]
    rw [ih m.tick h1]
    simp [Machine.tick, Nat.add_assoc, Nat.add_comm 1 n]

theorem TWI_Write_returned (status : Nat → Nat) (data : Nat) :
    ∀ (k : Nat) (m : Machine) (fuel : Nat),
      (∀ j, j < k → status (m.reads + j) &&& WIF = 0) → status (m.reads + k) &&& WIF ≠ 0 →
      k < fuel →
      TWI_Write status data fuel m =
        Run.returned (({ m with reads := m.reads + k + 1 } : Machine).store Reg.MDATA (data % 256)) := by
  intro k
  induction k with
  | zero =>
    intro m fuel _ hk hf
    obtain ⟨f, rfl⟩ : ∃ f, fuel = f + 1 := ⟨fuel - 1, by omega⟩
    have hk0 : ¬ status m.reads &&& WIF = 0 := by simpa using hk
    rw [TWI_Write]
    simp only [hk0, if_false]
    rfl
  | succ k ih =>
    intro m fuel h hk hf
    obtain ⟨f, rfl⟩ : ∃ f, fuel = f + 1 := ⟨fuel - 1, by omega⟩
    have h0 : status m.reads &&& WIF = 0 := by simpa using h 0 (Nat.succ_pos k)
    have h1 : ∀ j, j < k → status (m.tick.reads + j) &&& WIF = 0 := by
      intro j hj
      have := h (j + 1) (Nat.succ_lt_succ hj)
      simpa [Machine.tick, Nat.add_assoc, Nat.add_comm 1 j] using this
    have h2 : status (m.tick.reads + k) &&& WIF ≠ 0 := by
      simpa [Machine.tick, Nat.add_assoc, Nat.add_comm 1 k] using hk
    rw [TWI_Write]
    simp only [h0, if_true]
    rw [ih m.tick f h1 h2 (by omega)]
    simp [Machine.tick, Nat.add_assoc, Nat.add_comm 1 k]

theorem TWI_Write_congr (s1 s2 : Nat → Nat) (data : Nat)
    (h : ∀ n, s1 n &&& WIF = s2 n &&& WIF) :
    ∀ (fuel : Nat) (m : Machine), TWI_Write s1 data fuel m = TWI_Write s2 data fuel m := by
  intro fuel
  induction fuel with
  | zero => intro m; rfl
  | succ f ih =>
    intro m
    rw [TWI_Write, TWI_Write]
    simp only [h m.reads, ih m.tick]

/-! ## Runs of `main` -/

theorem store_log (m : Machine) (r : Reg) (v : Nat) :
    (m.store r v).log = m.log ++ [(r, v % 256)] := by
  cases r <;> rfl

@[simp] theorem store_reads (m : Machine) (r : Reg) (v : Nat) : (m.store r v).reads = m.reads := by
  cases r <;> rfl

@[simp] theorem tick_log (m : Machine) : m.tick.log = m.log := rfl

@[simp] theorem delay_eq (ms : Nat) (m : Machine) : _delay_ms ms m = m := rfl

theorem dataWrites_append (l1 l2 : List (Reg × Nat)) :
    dataWrites (l1 ++ l2) = dataWrites l1 ++ dataWrites l2 := by
  simp [dataWrites, List.filterMap_append]

theorem dataWrites_store (m : Machine) (r : Reg) (v : Nat) :
    dataWrites (m.store r v).log =
      dataWrites m.log ++ (if r = Reg.MDATA then [v % 256] else []) := by
  rw [store_log, dataWrites_append]
  by_cases h : r = Reg.MDATA <;> simp [dataWrites, h]

theorem dataWrites_ite (c : Prop) [Decidable c] (a b : Machine) :
    dataWrites (if c then a else b).log = if c then dataWrites a.log else dataWrites b.log := by
  split_ifs <;> rfl

theorem dataWrites_blinkLoop (pins : PinMasks) :
    ∀ (n : Nat) (m : Machine), dataWrites (blinkLoop pins n m).log = dataWrites m.log := by
  intro n
  induction n with
  | zero => intro m; rfl
  | succ n ih =>
    intro m
    rw [blinkLoop]
    simp only [delay_eq, ih, dataWrites_store]
    simp

theorem TWI_Write_data (status : Nat → Nat) (data : Nat) :
    ∀ (fuel : Nat) (m m1 : Machine), TWI_Write status data fuel m = Run.returned m1 →
      dataWrites m1.log = dataWrites m.log ++ [data % 256] := by
  intro fuel
  induction fuel with
  | zero => intro m m1 h; cases h
  | succ f ih =>
    intro m m1 h
    rw [TWI_Write] at h
    by_cases h0 : status m.reads &&& WIF = 0
    · simp only [h0, if_true] at h
      simpa using ih m.tick m1 h
    · simp only [h0, if_false] at h
      cases h
      simp only [dataWrites_store, tick_log]
      simp

theorem toOutcome_exitDone {r : Run} {mf : Machine} (h : r.toOutcome = Outcome.exitDone mf) :
    r = Run.returned mf := by
  cases r with
  | returned m => simpa [Run.toOutcome] using h
  | waiting m => simp [Run.toOutcome] at h

theorem write_andThen_returned {status : Nat → Nat} {data fuel : Nat} {m mf : Machine}
    {k : Machine → Run} (h : (TWI_Write status data fuel m).andThen k = Run.returned mf) :
    ∃ m1, dataWrites m1.log = dataWrites m.log ++ [data % 256] ∧ k m1 = Run.returned mf := by
  cases hr : TWI_Write status data fuel m with
  | returned m1 =>
    rw [hr] at h
    exact ⟨m1, TWI_Write_data status data fuel m m1 hr, h⟩
  | waiting m1 =>
    rw [hr] at h
    cases h

theorem main_exitDone_dataWrites (pins : PinMasks) (status : Nat → Nat) (fuel : Nat)
    (m0 mf : Machine) (h : main pins status fuel m0 = Outcome.exitDone mf) :
    dataWrites mf.log = dataWrites m0.log ++ cmdBytes := by
  unfold main at h
  simp only [delay_eq] at h
  split_ifs at h with hown
  have h := toOutcome_exitDone h
  obtain ⟨m1, d1, h⟩ := write_andThen_returned h
  obtain ⟨m2, d2, h⟩ := write_andThen_returned h
  obtain ⟨m3, d3, h⟩ := write_andThen_returned h
  obtain ⟨m4, d4, h⟩ := write_andThen_returned h
  obtain ⟨m5, d5, h⟩ := write_andThen_returned h
  obtain ⟨m6, d6, h⟩ := write_andThen_returned h
  obtain ⟨m7, d7, h⟩ := write_andThen_returned h
  obtain ⟨m8, d8, h⟩ := write_andThen_returned h
  obtain ⟨m9, d9, h⟩ := write_andThen_returned h
  obtain ⟨m10, d10, h⟩ := write_andThen_returned h
  obtain ⟨m11, d11, h⟩ := write_andThen_returned h
  obtain ⟨m12, d12, h⟩ := write_andThen_returned h
  obtain ⟨m13, d13, h⟩ := write_andThen_returned h
  obtain ⟨m14, d14, h⟩ := write_andThen_returned h
  obtain ⟨m15, d15, h⟩ := write_andThen_returned h
  obtain ⟨m16, d16, h⟩ := write_andThen_returned h
  obtain ⟨m17, d17, h⟩ := write_andThen_returned h
  obtain ⟨m18, d18, h⟩ := write_andThen_returned h
  obtain ⟨m19, d19, h⟩ := write_andThen_returned h
  injection h with h
  subst h
  simp only [dataWrites_ite, dataWrites_store, tick_log, dataWrites_blinkLoop, TWI_Stop,
    TWI_interrupt_init, TWI_Start, TWI_Init, TWI_Set_Address] at d1 d2 d3 ⊢
  simp [d1, d2, d3, d4, d5, d6, d7, d8, d9, d10, d11, d12, d13, d14, d15, d16, d17, d18, d19,
    cmdBytes]

theorem Settles_returned (m : Machine) : Settles (fun _ => Run.returned m) :=
  ⟨0, m, fun _ _ => rfl⟩

theorem Settles_andThen {f : Nat → Run} {k : Nat → Machine → Run} (hf : Settles f)
    (hk : ∀ m, Settles (fun fuel => k fuel m)) :
    Settles (fun fuel => (f fuel).andThen (k fuel)) := by
  obtain ⟨N1, m1, h1⟩ := hf
  obtain ⟨N2, m2, h2⟩ := hk m1
  refine ⟨max N1 N2, m2, fun fuel hfuel => ?_⟩
  have e1 := h1 fuel (le_trans (le_max_left _ _) hfuel)
  have e2 := h2 fuel (le_trans (le_max_right _ _) hfuel)
  simp only [e1, Run.andThen]
  exact e2

theorem Settles_TWI_Write (status : Nat → Nat) (hwif : ∀ n, ∃ k, status (n + k) &&& WIF ≠ 0)
    (data : Nat) (m : Machine) : Settles (fun fuel => TWI_Write status data fuel m) := by
  classical
  have hex := hwif m.reads
  have hk := Nat.find_spec hex
  have hlt : ∀ j, j < Nat.find hex → status (m.reads + j) &&& WIF = 0 := by
    intro j hj
    have := Nat.find_min hex hj
    simpa using this
  exact ⟨Nat.find hex + 1, _, fun fuel hfuel =>
    TWI_Write_returned status data (Nat.find hex) m fuel hlt hk (by omega)⟩

theorem Settles_toOutcome {f : Nat → Run} (hf : Settles f) :
    ∃ N mf, ∀ fuel, N ≤ fuel → (f fuel).toOutcome = Outcome.exitDone mf := by
  obtain ⟨N, m, h⟩ := hf
  exact ⟨N, m, fun fuel hfuel => by rw [h fuel hfuel]; rfl⟩

@[simp] theorem TWI_Set_Address_reads (a : Nat) (m : Machine) :
    (TWI_Set_Address a m).reads = m.reads := rfl

@[simp] theorem TWI_Init_reads (m : Machine) : (TWI_Init m).reads = m.reads := rfl

@[simp] theorem TWI_Start_reads (m : Machine) : (TWI_Start m).reads = m.reads := rfl

@[simp] theorem TWI_interrupt_init_reads (m : Machine) :
    (TWI_interrupt_init m).reads = m.reads := rfl

theorem main_settles (pins : PinMasks) (status : Nat → Nat) (m0 : Machine)
    (hown : status m0.reads &&& OWNER = 0x02) (hwif : ∀ n, ∃ k, status (n + k) &&& WIF ≠ 0) :
    ∃ N mf, ∀ fuel, N ≤ fuel → main pins status fuel m0 = Outcome.exitDone mf := by
  unfold main
  simp only [delay_eq, TWI_Set_Address_reads, TWI_Init_reads, TWI_Start_reads,
    TWI_interrupt_init_reads, store_reads, hown, if_true]
  apply Settles_toOutcome
  repeat refine Settles_andThen (Settles_TWI_Write status hwif _ _) (fun m => ?_)
  exact Settles_returned _

theorem main_exitNotOwner (pins : PinMasks) (status : Nat → Nat) (fuel : Nat) (m0 : Machine)
    (h : ¬ status m0.reads &&& OWNER = 0x02) :
    (main pins status fuel m0).exit = Exit.notOwner ∧
      dataWrites (main pins status fuel m0).machine.log = dataWrites m0.log := by
  unfold main
  simp only [delay_eq, TWI_Set_Address_reads, TWI_Init_reads, TWI_Start_reads,
    TWI_interrupt_init_reads, store_reads, h, if_false]
  refine ⟨rfl, ?_⟩
  simp only [Outcome.machine, TWI_interrupt_init, TWI_Start, TWI_Init, TWI_Set_Address,
    dataWrites_store, tick_log]
  simp

/-! ## Independence of the error flags -/

theorem and_of_or_mask (x c k : Nat) (hck : c &&& k = 0) : (x ||| c) &&& k = x &&& k := by
  apply Nat.eq_of_testBit_eq
  intro i
  have hi : (c &&& k).testBit i = false := by
    rw [hck]
    exact Nat.zero_testBit i
  rw [Nat.testBit_and] at hi
  simp only [Nat.testBit_and, Nat.testBit_or]
  cases hx : x.testBit i <;> cases hc : c.testBit i <;> cases hk : k.testBit i <;> simp_all

theorem and_eq_of_or_eq (x y c k : Nat) (hck : c &&& k = 0) (h : x ||| c = y ||| c) :
    x &&& k = y &&& k := by
  rw [← and_of_or_mask x c k hck, ← and_of_or_mask y c k hck, h]

theorem low_tick {a b : Machine} (h : a.low = b.low) : a.tick.low = b.tick.low := by
  simp only [Machine.low, Machine.tick, Prod.mk.injEq] at h ⊢
  obtain ⟨h1, h2, h3, h4, h5⟩ := h
  exact ⟨h1, h2, h3, by rw [h4], h5⟩

theorem low_store_led (a : Machine) (r : Reg) (v : Nat) (hr : r.isLedOut = true) :
    (a.store r v).low = a.low := by
  cases r <;> simp [Reg.isLedOut] at hr <;> simp [Machine.low, Machine.store, Reg.isLedOut]

theorem low_TWI_Stop {a b : Machine} (h : a.low = b.low) : (TWI_Stop a).low = (TWI_Stop b).low := by
  simp only [Machine.low, Prod.mk.injEq] at h ⊢
  obtain ⟨h1, h2, h3, h4, h5⟩ := h
  refine ⟨?_, h2, h3, h4, ?_⟩
  · have ea : (TWI_Stop a).TWI0 =
        { a.TWI0 with MCTRLB := (a.TWI0.MCTRLB ||| (NACK ||| STOP)) % 256 } := rfl
    have eb : (TWI_Stop b).TWI0 =
        { b.TWI0 with MCTRLB := (b.TWI0.MCTRLB ||| (NACK ||| STOP)) % 256 } := rfl
    rw [ea, eb, h1]
  · rw [TWI_Stop, TWI_Stop, store_log, store_log, List.filter_append, List.filter_append, h5, h1]

theorem low_store_MDATA {a b : Machine} (v : Nat) (h : a.low = b.low) :
    (a.store Reg.MDATA v).low = (b.store Reg.MDATA v).low := by
  simp only [Machine.low, Prod.mk.injEq] at h ⊢
  obtain ⟨h1, h2, h3, h4, h5⟩ := h
  refine ⟨?_, h2, h3, h4, ?_⟩
  · have ea : (a.store Reg.MDATA v).TWI0 = { a.TWI0 with MDATA := v % 256 } := rfl
    have eb : (b.store Reg.MDATA v).TWI0 = { b.TWI0 with MDATA := v % 256 } := rfl
    rw [ea, eb, h1]
  · rw [store_log, store_log, List.filter_append, List.filter_append, h5]

theorem LowEq_TWI_Write (s1 s2 : Nat → Nat) (data : Nat)
    (hw : ∀ n, s1 n &&& WIF = s2 n &&& WIF) :
    ∀ (fuel : Nat) (a b : Machine), a.low = b.low →
      Run.LowEq (TWI_Write s1 data fuel a) (TWI_Write s2 data fuel b) := by
  intro fuel
  induction fuel with
  | zero => intro a b h; exact h
  | succ f ih =>
    intro a b h
    have hr : a.reads = b.reads := by
      simp only [Machine.low, Prod.mk.injEq] at h
      exact h.2.2.2.1
    rw [TWI_Write, TWI_Write]
    simp only [hr, hw b.reads]
    split_ifs
    · exact ih _ _ (low_tick h)
    · exact low_store_MDATA _ (low_tick h)

theorem LowEq_andThen {r1 r2 : Run} {k1 k2 : Machine → Run} (hr : Run.LowEq r1 r2)
    (hk : ∀ a b, a.low = b.low → Run.LowEq (k1 a) (k2 b)) :
    Run.LowEq (r1.andThen k1) (r2.andThen k2) := by
  cases r1 <;> cases r2 <;> simp only [Run.LowEq, Run.andThen] at hr ⊢
  · exact hk _ _ hr
  · exact hr

theorem LowEq_toOutcome {r1 r2 : Run} (hr : Run.LowEq r1 r2) :
    r1.toOutcome.exit = r2.toOutcome.exit ∧ r1.toOutcome.machine.low = r2.toOutcome.machine.low := by
  cases r1 <;> cases r2 <;> simp only [Run.LowEq] at hr <;>
    simp [Run.toOutcome, Outcome.exit, Outcome.machine, hr]

theorem low_ite_led (c1 c2 : Prop) [Decidable c1] [Decidable c2] {a b : Machine} (r : Reg)
    (v1 v2 : Nat) (hr : r.isLedOut = true) (h : a.low = b.low) :
    (if c1 then a.store r v1 else a).low = (if c2 then b.store r v2 else b).low := by
  split_ifs <;> simp only [low_store_led _ _ _ hr, h]

theorem twiWrites_of_low {a b : Machine} (h : a.low = b.low) :
    twiWrites a.log = twiWrites b.log := by
  have hf : ∀ l : List (Reg × Nat),
      twiWrites l = twiWrites (l.filter fun w => !w.1.isLedOut) := by
    intro l
    simp only [twiWrites, List.filter_filter]
    congr 1
    funext w
    cases hw : w.1 <;> simp [Reg.isTwi, Reg.isLedOut]
  simp only [Machine.low, Prod.mk.injEq] at h
  rw [hf a.log, hf b.log, h.2.2.2.2]

theorem main_low_eq (pins : PinMasks) (s1 s2 : Nat → Nat) (fuel : Nat) (m0 : Machine)
    (h : ∀ n, s1 n ||| 0x1C = s2 n ||| 0x1C) :
    (main pins s1 fuel m0).exit = (main pins s2 fuel m0).exit ∧
      (main pins s1 fuel m0).machine.low = (main pins s2 fuel m0).machine.low := by
  have hO : ∀ n, s1 n &&& OWNER = s2 n &&& OWNER :=
    fun n => and_eq_of_or_eq _ _ 0x1C OWNER (by decide) (h n)
  have hW : ∀ n, s1 n &&& WIF = s2 n &&& WIF :=
    fun n => and_eq_of_or_eq _ _ 0x1C WIF (by decide) (h n)
  unfold main
  simp only [delay_eq, hO]
  split_ifs with hown
  · apply LowEq_toOutcome
    refine LowEq_andThen (LowEq_TWI_Write s1 s2 _ hW _ _ _ rfl) (fun a b hab => ?_)
    refine LowEq_andThen (LowEq_TWI_Write s1 s2 _ hW _ _ _ ?_) (fun a b hab => ?_)
    · exact low_ite_led _ _ _ _ _ rfl (low_tick hab)
    refine LowEq_andThen (LowEq_TWI_Write s1 s2 _ hW _ _ _ ?_) (fun a b hab => ?_)
    · refine low_ite_led _ _ _ _ _ rfl (low_tick ?_)
      rw [low_store_led _ Reg.PORTE_OUT _ rfl, low_store_led _ Reg.PORTE_OUT _ rfl]
      exact hab
    repeat refine LowEq_andThen (LowEq_TWI_Write s1 s2 _ hW _ _ _ hab) (fun a b hab => ?_)
    show (Machine.low _) = (Machine.low _)
    have hs := low_tick (low_TWI_Stop hab)
    split_ifs <;>
      simp only [low_store_led _ Reg.PORTE_OUT _ rfl, low_store_led _ Reg.PORTA_OUT _ rfl, hs]
  · exact ⟨rfl, rfl⟩

/-! ## Invariance of the address register along `main` -/

theorem TWI_Write_MADDR (status : Nat → Nat) (data : Nat) :
    ∀ (fuel : Nat) (m : Machine),
      (TWI_Write status data fuel m).machine.TWI0.MADDR = m.TWI0.MADDR := by
  intro fuel
  induction fuel with
  | zero => intro m; rfl
  | succ f ih =>
    intro m
    rw [TWI_Write]
    by_cases h0 : status m.reads &&& WIF = 0
    · simp only [h0, if_true]
      exact ih m.tick
    · simp only [h0, if_false]
      rfl

theorem andThen_machine_inv (P : Machine → Prop) {r : Run} {k : Machine → Run}
    (hr : P r.machine) (hk : ∀ m, P m → P (k m).machine) : P (r.andThen k).machine := by
  cases r with
  | returned m => exact hk m hr
  | waiting m => exact hr

theorem write_andThen_MADDR {status : Nat → Nat} {data fuel : Nat} {m : Machine} {x : Nat}
    {k : Machine → Run} (hm : m.TWI0.MADDR = x) (hk : ∀ m1, m1.TWI0.MADDR = x →
      (k m1).machine.TWI0.MADDR = x) :
    ((TWI_Write status data fuel m).andThen k).machine.TWI0.MADDR = x :=
  andThen_machine_inv (fun m1 => m1.TWI0.MADDR = x)
    ((TWI_Write_MADDR status data fuel m).trans hm) hk

theorem blinkLoop_TWI0 (pins : PinMasks) :
    ∀ (n : Nat) (m : Machine), (blinkLoop pins n m).TWI0 = m.TWI0 := by
  intro n
  induction n with
  | zero => intro m; rfl
  | succ n ih =>
    intro m
    rw [blinkLoop, ih]
    rfl

theorem toOutcome_machine (r : Run) : r.toOutcome.machine = r.machine := by
  cases r <;> rfl

theorem ite_led_MADDR (c : Prop) [Decidable c] (m : Machine) (v x : Nat)
    (h : m.TWI0.MADDR = x) :
    (if c then m.store Reg.PORTE_OUT v else m).TWI0.MADDR = x ∧
      (if c then m.store Reg.PORTA_OUT v else m).TWI0.MADDR = x := by
  split_ifs <;> exact ⟨h, h⟩

theorem main_MADDR (pins : PinMasks) (status : Nat → Nat) (fuel : Nat) (m0 : Machine) :
    (main pins status fuel m0).machine.TWI0.MADDR = 0x78 := by
  unfold main
  simp only [delay_eq]
  split_ifs with hown
  · rw [toOutcome_machine]
    refine write_andThen_MADDR ?_ (fun m1 h1 => ?_)
    · rw [blinkLoop_TWI0]
      simp only [TWI_interrupt_init, TWI_Start, TWI_Init, TWI_Set_Address, Machine.store,
        Machine.tick]
      decide
    refine write_andThen_MADDR (ite_led_MADDR _ m1.tick _ _ h1).1 (fun m2 h2 => ?_)
    refine write_andThen_MADDR
      (ite_led_MADDR _ (Machine.tick (Machine.store m2 Reg.PORTE_OUT _)) _ _ h2).2
      (fun m3 h3 => ?_)
    repeat refine write_andThen_MADDR h3 (fun m3 h3 => ?_)
    simp only [Run.machine]
    split_ifs <;> exact h3
  · simp only [Outcome.machine, TWI_interrupt_init, TWI_Start, TWI_Init, TWI_Set_Address,
      Machine.store, Machine.tick]
    decide

/-! ## The claims -/

/-- C1: in every run of `main` that reaches its end (the ownership check passed
and every `TWI_Write` wait observed `WIF`), whatever the status reads were
otherwise, the bytes stored to `MDATA` are exactly `0x00, 0xA8, 0x3F, 0xD3, 0x00,
0x40, 0xA1, 0xC0, 0xDA, 0x02, 0x81, 0x7F, 0xA4, 0xA6, 0xD5, 0x80, 0x8D, 0x14,
0xAF`, in this order; and when the first status read passes the ownership check
and `WIF` is seen again after every read, the run does reach its end for every
large enough poll budget. -/
theorem main_transmits_cmdBytes (pins : PinMasks) (status : Nat → Nat) (m0 : Machine) :
    (∀ fuel mf, main pins status fuel m0 = Outcome.exitDone mf →
        dataWrites mf.log = dataWrites m0.log ++
          [0x00, 0xA8, 0x3F, 0xD3, 0x00, 0x40, 0xA1, 0xC0, 0xDA, 0x02, 0x81, 0x7F, 0xA4, 0xA6,
           0xD5, 0x80, 0x8D, 0x14, 0xAF]) ∧
      (status m0.reads &&& OWNER = 0x02 → (∀ n, ∃ k, status (n + k) &&& WIF ≠ 0) →
        ∃ N mf, (∀ fuel, N ≤ fuel → main pins status fuel m0 = Outcome.exitDone mf) ∧
          dataWrites mf.log = dataWrites m0.log ++
            [0x00, 0xA8, 0x3F, 0xD3, 0x00, 0x40, 0xA1, 0xC0, 0xDA, 0x02, 0x81, 0x7F, 0xA4, 0xA6,
             0xD5, 0x80, 0x8D, 0x14, 0xAF]) := by
  refine ⟨fun fuel mf h => main_exitDone_dataWrites pins status fuel m0 mf h, fun hown hwif => ?_⟩
  obtain ⟨N, mf, h⟩ := main_settles pins status m0 hown hwif
  exact ⟨N, mf, h, main_exitDone_dataWrites pins status N m0 mf (h N le_rfl)⟩

theorem main_transmits_cmdBytes_witness :
    ownerReady resetMachine.reads &&& OWNER = 0x02 ∧
      (∀ n, ∃ k, ownerReady (n + k) &&& WIF ≠ 0) ∧
      ∃ N mf, (∀ fuel, N ≤ fuel → main avrPins ownerReady fuel resetMachine = Outcome.exitDone mf) ∧
        dataWrites mf.log = dataWrites resetMachine.log ++
          [0x00, 0xA8, 0x3F, 0xD3, 0x00, 0x40, 0xA1, 0xC0, 0xDA, 0x02, 0x81, 0x7F, 0xA4, 0xA6,
           0xD5, 0x80, 0x8D, 0x14, 0xAF] :=
  ⟨by decide, fun _ => ⟨0, (by decide : (0x42 : Nat) &&& WIF ≠ 0)⟩,
    (main_transmits_cmdBytes avrPins ownerReady resetMachine).2 (by decide)
      (fun _ => ⟨0, (by decide : (0x42 : Nat) &&& WIF ≠ 0)⟩)⟩

/-- C2 (divergence): with every status read `0x43`, whose bus-state field is
`BUSY` (3) and not `OWNER` (2), the test `(TWI0.MSTATUS & OWNER) == 0x02` of
`main` passes: the run does not take the not-owner exit, it stores all 19
command bytes to `MDATA` and reaches the end of `main`. -/
theorem main_busy_state_proceeds :
    busState (busyReady 0) = BUSY ∧ busState (busyReady 0) ≠ OWNER ∧
      (main avrPins busyReady 1 resetMachine).exit = Exit.done ∧
      dataWrites (main avrPins busyReady 1 resetMachine).machine.log = cmdBytes ∧
      (dataWrites (main avrPins busyReady 1 resetMachine).machine.log).length = 19 := by
  decide

/-- C3 (as amended): on the success path `main` makes exactly 19 `TWI_Write`
calls, each storing one byte to `MDATA`: the control byte `0x00` followed by 18
display command bytes; and the success path is taken, for every large enough
poll budget, when the first status read passes the ownership check and `WIF` is
seen again after every read. -/
theorem main_write_count (pins : PinMasks) (status : Nat → Nat) (m0 : Machine) :
    (∀ fuel mf, main pins status fuel m0 = Outcome.exitDone mf →
        (dataWrites mf.log).length = (dataWrites m0.log).length + 19 ∧
          ∃ cmds : List Nat, cmds.length = 18 ∧
            dataWrites mf.log = dataWrites m0.log ++ 0x00 :: cmds) ∧
      (status m0.reads &&& OWNER = 0x02 → (∀ n, ∃ k, status (n + k) &&& WIF ≠ 0) →
        ∃ N mf, (∀ fuel, N ≤ fuel → main pins status fuel m0 = Outcome.exitDone mf) ∧
          (dataWrites mf.log).length = (dataWrites m0.log).length + 19) := by
  have hcount : ∀ fuel mf, main pins status fuel m0 = Outcome.exitDone mf →
      (dataWrites mf.log).length = (dataWrites m0.log).length + 19 ∧
        ∃ cmds : List Nat, cmds.length = 18 ∧
          dataWrites mf.log = dataWrites m0.log ++ 0x00 :: cmds := by
    intro fuel mf h
    have hd := main_exitDone_dataWrites pins status fuel m0 mf h
    refine ⟨?_, cmdBytes.tail, rfl, ?_⟩
    · rw [hd, List.length_append]
      rfl
    · rw [hd]
      rfl
  refine ⟨hcount, fun hown hwif => ?_⟩
  obtain ⟨N, mf, h⟩ := main_settles pins status m0 hown hwif
  exact ⟨N, mf, h, (hcount N mf (h N le_rfl)).1⟩

theorem main_write_count_witness :
    ownerReady resetMachine.reads &&& OWNER = 0x02 ∧
      (∀ n, ∃ k, ownerReady (n + k) &&& WIF ≠ 0) ∧
      ∃ N mf, (∀ fuel, N ≤ fuel → main avrPins ownerReady fuel resetMachine = Outcome.exitDone mf) ∧
        (dataWrites mf.log).length = (dataWrites resetMachine.log).length + 19 :=
  ⟨by decide, fun _ => ⟨0, (by decide : (0x42 : Nat) &&& WIF ≠ 0)⟩,
    (main_write_count avrPins ownerReady resetMachine).2 (by decide)
      (fun _ => ⟨0, (by decide : (0x42 : Nat) &&& WIF ≠ 0)⟩)⟩

/-- C3 (as stated) fails: from the reset state, with every status read showing
`OWNER` and `WIF`, `main` reaches its end having stored 19 bytes to `MDATA`, not
18, and 18 bytes, not 17, follow the control byte `0x00`. -/
theorem main_write_count_counterexample :
    (main avrPins ownerReady 1 resetMachine).exit = Exit.done ∧
      ¬ ((dataWrites (main avrPins ownerReady 1 resetMachine).machine.log).length = 18) ∧
      (dataWrites (main avrPins ownerReady 1 resetMachine).machine.log).head? = some 0x00 ∧
      ¬ ((dataWrites (main avrPins ownerReady 1 resetMachine).machine.log).tail.length = 17) := by
  decide

/-- C4: for every register state and every 8-bit `addr`, `TWI_Set_Address addr`
first stores `MCTRLA` with bit 0 (the enable bit) cleared and every other bit as
it was, then stores `addr` to `MADDR`; these are its only two register writes, so
`MBAUD`, `MSTATUS`, `MDATA`, `MCTRLB` and the ports keep their values, and the
address is written while the enable bit is clear. -/
theorem TWI_Set_Address_disables_then_sets (m : Machine) (addr : Nat) (hm : m.Valid)
    (haddr : addr < 256) :
    (TWI_Set_Address addr m).log =
        m.log ++ [(Reg.MCTRLA, (TWI_Set_Address addr m).TWI0.MCTRLA), (Reg.MADDR, addr)] ∧
      (TWI_Set_Address addr m).TWI0.MCTRLA.testBit 0 = false ∧
      (∀ i, (TWI_Set_Address addr m).TWI0.MCTRLA.testBit i =
        (decide (i ≠ 0) && m.TWI0.MCTRLA.testBit i)) ∧
      (TWI_Set_Address addr m).TWI0 =
        { m.TWI0 with MCTRLA := (TWI_Set_Address addr m).TWI0.MCTRLA, MADDR := addr } ∧
      (TWI_Set_Address addr m).PORTA = m.PORTA ∧ (TWI_Set_Address addr m).PORTE = m.PORTE ∧
      (TWI_Set_Address addr m).reads = m.reads := by
  have hbit := testBit_and_bitNot_one m.TWI0.MCTRLA
  have ha : addr % 256 = addr := Nat.mod_eq_of_lt haddr
  refine ⟨?_, ?_, ?_, ?_, rfl, rfl, rfl⟩
  · simp [TWI_Set_Address, Machine.store, ha]
  · simpa [TWI_Set_Address, Machine.store] using hbit 0 hm.1.1
  · intro i
    simpa [TWI_Set_Address, Machine.store] using hbit i hm.1.1
  · simp [TWI_Set_Address, Machine.store, ha]

theorem TWI_Set_Address_disables_then_sets_witness :
    sampleMachine.Valid ∧ (0x78 : Nat) < 256 ∧
      (TWI_Set_Address 0x78 sampleMachine).log =
        [(Reg.MDATA, 0x99), (Reg.MCTRLA, 0xC2), (Reg.MADDR, 0x78)] :=
  ⟨by decide, by decide,
    (TWI_Set_Address_disables_then_sets sampleMachine 0x78 (by decide) (by decide)).1⟩

/-- C5: for every register state, `TWI_Init` stores 76 to `MBAUD`, then the
pattern `0xED` (`RIF|WIF|CLK|ARBLOST|BUSERR` with bus state `IDLE`) to `MSTATUS`,
then `MCTRLA` with bit 0 set and its other bits kept; `MADDR`, `MDATA`, `MCTRLB`
and the ports are untouched, so `MADDR` still holds the value it had before. -/
theorem TWI_Init_effect (m : Machine) (hm : m.Valid) :
    (TWI_Init m).TWI0.MBAUD = 76 ∧ (TWI_Init m).TWI0.MSTATUS = 0xED ∧
      0xED = RIF ||| WIF ||| CLK ||| ARBLOST ||| BUSERR ||| IDLE ∧ busState 0xED = IDLE ∧
      (TWI_Init m).TWI0.MCTRLA = m.TWI0.MCTRLA ||| 0x01 ∧
      (∀ i, (TWI_Init m).TWI0.MCTRLA.testBit i = (decide (i = 0) || m.TWI0.MCTRLA.testBit i)) ∧
      (TWI_Init m).TWI0.MADDR = m.TWI0.MADDR ∧ (TWI_Init m).TWI0.MDATA = m.TWI0.MDATA ∧
      (TWI_Init m).TWI0.MCTRLB = m.TWI0.MCTRLB ∧
      (TWI_Init m).PORTA = m.PORTA ∧ (TWI_Init m).PORTE = m.PORTE ∧
      (TWI_Init m).reads = m.reads ∧
      (TWI_Init m).log =
        m.log ++ [(Reg.MBAUD, 76), (Reg.MSTATUS, 0xED), (Reg.MCTRLA, m.TWI0.MCTRLA ||| 0x01)] := by
  have h1 : (m.TWI0.MCTRLA ||| 1) % 256 = m.TWI0.MCTRLA ||| 1 :=
    or_mod_256 _ _ hm.1.1 (by decide)
  have h2 : (TWI_Init m).TWI0.MCTRLA = m.TWI0.MCTRLA ||| 0x01 := by
    simp [TWI_Init, Machine.store, h1]
  refine ⟨rfl, rfl, by decide, by decide, h2, ?_, rfl, rfl, rfl, rfl, rfl, rfl, ?_⟩
  · intro i
    rw [h2]
    exact testBit_or_one _ i
  · simp [TWI_Init, Machine.store, h1]

theorem TWI_Init_effect_witness :
    sampleMachine.Valid ∧ (TWI_Init sampleMachine).TWI0.MADDR = 0x55 ∧
      (TWI_Init (TWI_Set_Address 0x78 sampleMachine)).TWI0.MADDR = 0x78 :=
  ⟨by decide, (TWI_Init_effect sampleMachine (by decide)).2.2.2.2.2.2.1,
    (TWI_Init_effect (TWI_Set_Address 0x78 sampleMachine) (by decide)).2.2.2.2.2.2.1⟩

/-- C6 (as amended): `TWI_Init` programs the constant 76 into the baud register,
whereas the formula `(hostClock / (2 × busRate)) − 5` in exact arithmetic at
`hostClock = 16000000`, `busRate = 100000` has the value 75; the programmed
divisor is the value of the formula plus one. -/
theorem TWI_Init_baud_vs_formula (m : Machine) :
    (TWI_Init m).TWI0.MBAUD = 76 ∧ specDivisor 16000000 100000 = 75 ∧
      (((TWI_Init m).TWI0.MBAUD : Nat) : ℚ) = specDivisor 16000000 100000 + 1 := by
  have h : specDivisor 16000000 100000 = 75 := by
    unfold specDivisor
    norm_num
  refine ⟨rfl, h, ?_⟩
  rw [h]
  show ((76 : Nat) : ℚ) = 75 + 1
  norm_num

/-- C6 (as stated) fails: at the reset state the divisor `TWI_Init` programs is
not the value of the formula, and the value of the formula is not 76. -/
theorem TWI_Init_baud_formula_counterexample :
    ¬ ((((TWI_Init resetMachine).TWI0.MBAUD : Nat) : ℚ) = specDivisor 16000000 100000 ∧
        specDivisor 16000000 100000 = 76) := by
  have h : specDivisor 16000000 100000 = 75 := by
    unfold specDivisor
    norm_num
  rw [h]
  norm_num

/-- C7: for every register state, `TWI_Stop` is a single store that sets the
`NACK` and `STOP` bits (`0x04 | 0x03 = 0x07`) of `MCTRLB` and keeps its other
bits; it reads no status (the read count is unchanged), leaves `MSTATUS` and all
other registers as they were, so an `IDLE` bus state stays `IDLE`; and a second
`TWI_Stop` leaves the register state of the first. -/
theorem TWI_Stop_effect (m : Machine) (hm : m.Valid) :
    NACK ||| STOP = 0x07 ∧
      (TWI_Stop m).TWI0 = { m.TWI0 with MCTRLB := m.TWI0.MCTRLB ||| 0x07 } ∧
      (∀ i, (TWI_Stop m).TWI0.MCTRLB.testBit i = (decide (i < 3) || m.TWI0.MCTRLB.testBit i)) ∧
      (TWI_Stop m).reads = m.reads ∧
      (TWI_Stop m).log = m.log ++ [(Reg.MCTRLB, m.TWI0.MCTRLB ||| 0x07)] ∧
      (TWI_Stop m).TWI0.MSTATUS = m.TWI0.MSTATUS ∧
      (busState m.TWI0.MSTATUS = IDLE → busState (TWI_Stop m).TWI0.MSTATUS = IDLE) ∧
      (TWI_Stop m).PORTA = m.PORTA ∧ (TWI_Stop m).PORTE = m.PORTE ∧
      (TWI_Stop (TWI_Stop m)).TWI0 = (TWI_Stop m).TWI0 ∧
      (TWI_Stop (TWI_Stop m)).PORTA = (TWI_Stop m).PORTA ∧
      (TWI_Stop (TWI_Stop m)).PORTE = (TWI_Stop m).PORTE ∧
      (TWI_Stop (TWI_Stop m)).reads = (TWI_Stop m).reads := by
  have h0 : NACK ||| STOP = 0x07 := by decide
  have h1 : (m.TWI0.MCTRLB ||| 7) % 256 = m.TWI0.MCTRLB ||| 7 :=
    or_mod_256 _ _ hm.1.2.1 (by decide)
  have h2 : (TWI_Stop m).TWI0 = { m.TWI0 with MCTRLB := m.TWI0.MCTRLB ||| 0x07 } := by
    simp [TWI_Stop, Machine.store, h0, h1]
  have h3 : (m.TWI0.MCTRLB ||| 7 ||| 7) = m.TWI0.MCTRLB ||| 7 := by
    rw [Nat.lor_assoc, Nat.or_self]
  refine ⟨h0, h2, ?_, rfl, ?_, rfl, fun h => h, rfl, rfl, ?_, rfl, rfl, rfl⟩
  · intro i
    rw [h2]
    exact testBit_or_seven _ i
  · simp [TWI_Stop, Machine.store, h0, h1]
  · simp [TWI_Stop, Machine.store, h0, h1, h3]

theorem TWI_Stop_effect_witness :
    sampleMachine.Valid ∧ busState sampleMachine.TWI0.MSTATUS = IDLE ∧
      busState (TWI_Stop sampleMachine).TWI0.MSTATUS = IDLE ∧
      (TWI_Stop sampleMachine).TWI0.MCTRLB = 0x0F :=
  ⟨by decide, by decide,
    (TWI_Stop_effect sampleMachine (by decide)).2.2.2.2.2.2.1 (by decide),
    congrArg TWI_t.MCTRLB (TWI_Stop_effect sampleMachine (by decide)).2.1⟩

/-- C8: two runs of `main` from the same state whose status reads differ at most
in the error-flag bits (mask `0x1C` = `RXACK | ARBLOST | BUSERR`) end the same
way (not-owner exit, end of `main`, or still waiting), perform the same sequence
of writes to the TWI registers, and agree on everything except the debug LED
outputs `PORTE.OUT` and `PORTA.OUT`: the TWI register file, the port directions,
the number of status reads and the log of all writes to other registers. -/
theorem main_error_flags_only_leds (pins : PinMasks) (s1 s2 : Nat → Nat) (fuel : Nat)
    (m0 : Machine) (h : ∀ n, s1 n ||| 0x1C = s2 n ||| 0x1C) :
    0x1C = RXACK ||| ARBLOST ||| BUSERR ∧
      (main pins s1 fuel m0).exit = (main pins s2 fuel m0).exit ∧
      twiWrites (main pins s1 fuel m0).machine.log = twiWrites (main pins s2 fuel m0).machine.log ∧
      (main pins s1 fuel m0).machine.TWI0 = (main pins s2 fuel m0).machine.TWI0 ∧
      (main pins s1 fuel m0).machine.low = (main pins s2 fuel m0).machine.low := by
  have hl := main_low_eq pins s1 s2 fuel m0 h
  refine ⟨by decide, hl.1, twiWrites_of_low hl.2, ?_, hl.2⟩
  have h2 := hl.2
  simp only [Machine.low, Prod.mk.injEq] at h2
  exact h2.1

theorem main_error_flags_only_leds_witness :
    (∀ n, ownerReady n ||| 0x1C = ownerReadyErrors n ||| 0x1C) ∧
      twiWrites (main avrPins ownerReady 1 resetMachine).machine.log =
        twiWrites (main avrPins ownerReadyErrors 1 resetMachine).machine.log ∧
      (main avrPins ownerReady 1 resetMachine).machine.PORTE.OUT ≠
        (main avrPins ownerReadyErrors 1 resetMachine).machine.PORTE.OUT :=
  ⟨fun _ => (by decide : (0x42 : Nat) ||| 0x1C = 0x5E ||| 0x1C),
    (main_error_flags_only_leds avrPins ownerReady ownerReadyErrors 1 resetMachine
      (fun _ => (by decide : (0x42 : Nat) ||| 0x1C = 0x5E ||| 0x1C))).2.2.1,
    by decide⟩

/-- C9: with the status register given as the sequence of its successive read
values, `TWI_Write byte` polls until the first read with `WIF` (0x40) set: with
that read at offset `k`, it is still waiting after any `fuel ≤ k` polls and has
returned for every larger budget, having consumed `k + 1` reads and stored
`byte` to `MDATA` as its only register write; only the `WIF` bit of the reads
matters; it returns for some budget exactly when some read has `WIF` set; and
if no read has `WIF` set it is still waiting after `n` polls, for every `n`. -/
theorem TWI_Write_blocks_until_WIF (status : Nat → Nat) (byte : Nat) (hb : byte < 256)
    (m : Machine) :
    (∀ k, (∀ j, j < k → status (m.reads + j) &&& WIF = 0) → status (m.reads + k) &&& WIF ≠ 0 →
        ∀ fuel, TWI_Write status byte fuel m =
          if fuel ≤ k then Run.waiting { m with reads := m.reads + fuel }
          else Run.returned
            { m with reads := m.reads + k + 1, TWI0 := { m.TWI0 with MDATA := byte },
                     log := m.log ++ [(Reg.MDATA, byte)] }) ∧
      ((∀ j, status (m.reads + j) &&& WIF = 0) →
        ∀ n, TWI_Write status byte n m = Run.waiting { m with reads := m.reads + n }) ∧
      ((∃ fuel m1, TWI_Write status byte fuel m = Run.returned m1) ↔
        ∃ k, status (m.reads + k) &&& WIF ≠ 0) ∧
      (∀ status2 : Nat → Nat, (∀ n, status2 n &&& WIF = status n &&& WIF) →
        ∀ fuel, TWI_Write status2 byte fuel m = TWI_Write status byte fuel m) := by
  have hbm : byte % 256 = byte := Nat.mod_eq_of_lt hb
  have hfirst : ∀ k, (∀ j, j < k → status (m.reads + j) &&& WIF = 0) →
      status (m.reads + k) &&& WIF ≠ 0 →
      ∀ fuel, TWI_Write status byte fuel m =
        if fuel ≤ k then Run.waiting { m with reads := m.reads + fuel }
        else Run.returned
          { m with reads := m.reads + k + 1, TWI0 := { m.TWI0 with MDATA := byte },
                   log := m.log ++ [(Reg.MDATA, byte)] } := by
    intro k hlt hk fuel
    by_cases hf : fuel ≤ k
    · rw [if_pos hf]
      exact TWI_Write_waiting status byte fuel m (fun j hj => hlt j (lt_of_lt_of_le hj hf))
    · rw [if_neg hf, TWI_Write_returned status byte k m fuel hlt hk (not_le.mp hf)]
      simp [Machine.store, hbm]
  have hnever : (∀ j, status (m.reads + j) &&& WIF = 0) →
      ∀ n, TWI_Write status byte n m = Run.waiting { m with reads := m.reads + n } :=
    fun h n => TWI_Write_waiting status byte n m (fun j _ => h j)
  refine ⟨hfirst, hnever, ⟨?_, ?_⟩, fun status2 h fuel => TWI_Write_congr status2 status byte h fuel m⟩
  · rintro ⟨fuel, m1, hr⟩
    by_contra hno
    have hall : ∀ j, status (m.reads + j) &&& WIF = 0 := by
      intro j
      by_contra hj
      exact hno ⟨j, hj⟩
    rw [hnever hall fuel] at hr
    cases hr
  · intro hex
    classical
    have hk := Nat.find_spec hex
    have hlt : ∀ j, j < Nat.find hex → status (m.reads + j) &&& WIF = 0 := by
      intro j hj
      have := Nat.find_min hex hj
      simpa using this
    have hr := hfirst (Nat.find hex) hlt hk (Nat.find hex + 1)
    rw [if_neg (by omega)] at hr
    exact ⟨Nat.find hex + 1, _, hr⟩

theorem TWI_Write_blocks_until_WIF_witness :
    (0xA8 : Nat) < 256 ∧
      TWI_Write (fun n => if n = 5 then 0x5C else 0x9F) 0xA8 3 sampleMachine =
        Run.returned
          { sampleMachine with reads := 6, TWI0 := { sampleMachine.TWI0 with MDATA := 0xA8 },
                               log := [(Reg.MDATA, 0x99), (Reg.MDATA, 0xA8)] } ∧
      TWI_Write (fun n => if n = 5 then 0x5C else 0x9F) 0xA8 2 sampleMachine =
        Run.waiting { sampleMachine with reads := 5 } :=
  ⟨by decide,
    (TWI_Write_blocks_until_WIF (fun n => if n = 5 then 0x5C else 0x9F) 0xA8 (by decide)
      sampleMachine).1 2 (by decide) (by decide) 3,
    (TWI_Write_blocks_until_WIF (fun n => if n = 5 then 0x5C else 0x9F) 0xA8 (by decide)
      sampleMachine).1 2 (by decide) (by decide) 2⟩

/-- C10: for every register state, `TWI_Start` is a single store to `MADDR` of
its old value with bit 0 (the direction bit) cleared and the other bits kept,
and no other register changes; hence for every 7-bit address `a`, after
`TWI_Set_Address (a << 1)`, `TWI_Init`, `TWI_Start` the address register holds
`a << 1`, which for `a = 0x3C` is `0x78`; `main` passes `0x78`, and in whatever
state a run of `main` ends or waits, the address register holds `0x78`. -/
theorem TWI_Start_rewrites_address (m : Machine) (hm : m.Valid) :
    (∀ i, (TWI_Start m).TWI0.MADDR.testBit i = (decide (i ≠ 0) && m.TWI0.MADDR.testBit i)) ∧
      (TWI_Start m).TWI0 = { m.TWI0 with MADDR := (TWI_Start m).TWI0.MADDR } ∧
      (TWI_Start m).PORTA = m.PORTA ∧ (TWI_Start m).PORTE = m.PORTE ∧
      (TWI_Start m).reads = m.reads ∧
      (TWI_Start m).log = m.log ++ [(Reg.MADDR, (TWI_Start m).TWI0.MADDR)] ∧
      (∀ a, a < 128 →
        (TWI_Start (TWI_Init (TWI_Set_Address (a <<< 1) m))).TWI0.MADDR = a <<< 1) ∧
      (TWI_Start (TWI_Init (TWI_Set_Address (0x3C <<< 1) m))).TWI0.MADDR = 0x78 ∧
      (∀ (pins : PinMasks) (status : Nat → Nat) (fuel : Nat),
        (main pins status fuel m).machine.TWI0.MADDR = 0x3C <<< 1) := by
  have hbit := testBit_and_bitNot_one m.TWI0.MADDR
  have hseq : ∀ a, a < 128 →
      (TWI_Start (TWI_Init (TWI_Set_Address (a <<< 1) m))).TWI0.MADDR = a <<< 1 := by
    intro a ha
    simpa [TWI_Start, TWI_Init, TWI_Set_Address, Machine.store] using shl_and_bitNot_one a ha
  refine ⟨?_, ?_, rfl, rfl, rfl, ?_, hseq, hseq 0x3C (by decide),
    fun pins status fuel => main_MADDR pins status fuel m⟩
  · intro i
    simpa [TWI_Start, Machine.store] using hbit i hm.2.1.2.1
  · simp [TWI_Start, Machine.store]
  · simp [TWI_Start, Machine.store]

theorem TWI_Start_rewrites_address_witness :
    sampleMachine.Valid ∧ (0x3C : Nat) < 128 ∧
      (TWI_Start (TWI_Init (TWI_Set_Address (0x3C <<< 1) sampleMachine))).TWI0.MADDR =
        0x3C <<< 1 ∧
      (TWI_Start (TWI_Init (TWI_Set_Address (0x3C <<< 1) sampleMachine))).TWI0.MADDR = 0x78 :=
  ⟨by decide, by decide,
    (TWI_Start_rewrites_address sampleMachine (by decide)).2.2.2.2.2.2.1 0x3C (by decide),
    (TWI_Start_rewrites_address sampleMachine (by decide)).2.2.2.2.2.2.2.1⟩

end Twi
